import Mathlib

set_option maxHeartbeats 1000000

/-!
Verification development for the VPP HTTP/1.1 transport plugin
(src/plugins/http/http.c).  The byte-buffer parser and the per-connection
state-machine handlers are shallowly embedded over `List Nat` byte buffers;
machine integers are modelled as `Nat` with explicit wrap-around (`% 2^w`,
`u32_sub`) at the places where the C code can overflow or underflow.
-/

deriving instance DecidableEq for Except

namespace VppHttp

/-- A byte buffer (`u8 *` vector in the C source); each element is a byte
(`u8`, value `0..255`) as a `Nat`. -/
abbrev Buf := List Nat

/-- ASCII bytes of a string literal (used for the C string constants). -/
def str2bytes (s : String) : Buf := s.toList.map Char.toNat

/-- The CRLF terminator bytes. -/
def crlf : Buf := [13, 10]

/-- The CRLFCRLF header-section terminator bytes. -/
def crlfcrlf : Buf := [13, 10, 13, 10]

/-- C `isdigit` on a byte. -/
def isdigit (c : Nat) : Bool := 48 ≤ c && c ≤ 57

/-- Space or horizontal tab (the whitespace skipped around header values). -/
def isWs (c : Nat) : Bool := c == 32 || c == 9

/-- 32-bit unsigned subtraction with wrap-around, for `u32` expressions of the
source that can underflow (e.g. `next_line_offset - 11`).  Inputs are assumed
`< 2^32`, as all fifo sizes and vector lengths are. -/
def u32_sub (a b : Nat) : Nat := if b ≤ a then a - b else a + 4294967296 - b

/-- `memcmp (vec + i, str, str.length) == 0` of the source: the bytes of
`vec` at positions `i, i+1, ...` equal `str`. -/
def matchAt (vec str : Buf) (i : Nat) : Bool :=
  (List.range str.length).all fun j => vec.getD (i + j) 0 == str.getD j 0

/-- Model of `v_find_index` (http.c:567-594): first occurrence of `str` in
`vec[offset .. offset+num)` (`num = 0` means unbounded), `none` for the C
sentinel `-1`.  The C `end_index = clib_min (end_index, offset + num - slen)`
is `u32` arithmetic; both sides stay below `2^32` for all reachable inputs,
and an `offset` beyond `end_index` yields an empty search either way. -/
def v_find_index (vec : Buf) (offset num : Nat) (str : Buf) : Option Nat :=
  let slen := str.length
  let vlen := vec.length
  if vlen ≤ slen then none
  else if num ≠ 0 ∧ num < slen then none
  else
    let endIdx := if num = 0 then vlen - slen else min (vlen - slen) (offset + num - slen)
    (List.range' offset (endIdx + 1 - offset)).find? fun i => matchAt vec str i

/-! ## Enumerations (http.h / http.c) -/

/-- The HTTP status codes produced by the parser on the server rx path
(`http_status_code_t` members that occur as error codes in http.c). -/
inductive StatusCode where
  | badRequest
  | notImplemented
  | versionNotSupported
  | internalError
  deriving DecidableEq, Repr

/-- `http_req_method_t`: the two supported request methods. -/
inductive Method where
  | get
  | post
  deriving DecidableEq, Repr

/-- `http_url_scheme_t` target forms (`HTTP_TARGET_*_FORM`). -/
inductive TargetForm where
  | origin
  | absolute
  | authority
  | asterisk
  deriving DecidableEq, Repr

/-! ## String constants of the source -/

/-- The bytes `"GET "` matched at the method offset (http.c:696). -/
def strGETsp : Buf := str2bytes ("GET ")

/-- The bytes `"POST "` matched at the method offset (http.c:702). -/
def strPOSTsp : Buf := str2bytes ("POST ")

/-- The bytes `" HTTP/"` located before the version digit (http.c:725). -/
def strSpHTTP : Buf := str2bytes (" HTTP/")

/-- The bytes `"HTTP/1."` expected at the start of a status line
(http.c:833-839 `expect_char` chain). -/
def strHTTP1dot : Buf := str2bytes ("HTTP/1.")

/-- The bytes `"://"` of the absolute-form scheme separator (http.c:640). -/
def strSchemeSep : Buf := str2bytes ("://")

/-- The bytes `"Content-Length:"` searched in the headers (http.c:938). -/
def strContentLength : Buf := str2bytes ("Content-Length:")

/-! ## Request-target classification (http.c:596-660) -/

/-- The four request-target fields mutated by `http_identify_optional_query`. -/
structure QuerySplit where
  path_offset : Nat
  path_len : Nat
  query_offset : Nat
  query_len : Nat
  deriving DecidableEq, Repr

/-- Model of `http_identify_optional_query` (http.c:596-612): find the first
`'?'` in `rx[po .. po+pl)`; on a hit set `query_offset = i + 1`,
`query_len = po + pl - query_offset` and shrink `path_len` by
`query_len + 1`, exactly as the source assignments do. -/
def http_identify_optional_query (rx : Buf) (po pl : Nat) : QuerySplit :=
  match (List.range' po pl).find? (fun i => rx.getD i 0 == 63) with
  | some i => ⟨po, pl - (po + pl - (i + 1)) - 1, i + 1, po + pl - (i + 1)⟩
  | none => ⟨po, pl, 0, 0⟩

/-- A classified request target (the five `hc->target_*` fields). -/
structure Target where
  path_offset : Nat
  path_len : Nat
  query_offset : Nat
  query_len : Nat
  form : TargetForm
  deriving DecidableEq, Repr

/-- Model of `http_get_target_form` (http.c:614-660), `none` for the C
return value `-1`.  The branches are tried in source order: asterisk,
origin (leading slash stripped, then optional query), absolute (a `"://"`
found at a positive index, then optional query), authority (a `':'`
directly followed by a digit; as in the source the digit byte may be the
byte just after the target region). -/
def http_get_target_form (rx : Buf) (po pl : Nat) : Option Target :=
  if rx.getD po 0 == 42 && pl == 1 then
    some ⟨po, pl, 0, 0, .asterisk⟩
  else if rx.getD po 0 == 47 then
    let q := http_identify_optional_query rx (po + 1) (pl - 1)
    some ⟨q.path_offset, q.path_len, q.query_offset, q.query_len, .origin⟩
  else
    let absHit := match v_find_index rx po pl strSchemeSep with
      | some i => decide (0 < i)
      | none => false
    if absHit then
      let q := http_identify_optional_query rx po pl
      some ⟨q.path_offset, q.path_len, q.query_offset, q.query_len, .absolute⟩
    else if ((List.range' po pl).find? fun i =>
        rx.getD i 0 == 58 && isdigit (rx.getD (i + 1) 0)).isSome then
      some ⟨po, pl, 0, 0, .authority⟩
    else
      none

/-- First index of byte `c` in `l` (spec-side vocabulary for the
request-target classification claim). -/
def firstIdxOf (l : Buf) (c : Nat) : Option Nat :=
  (List.range l.length).find? fun k => l.getD k 0 == c

/-- Does `s` occur as a contiguous substring of `l`?  (Spec-side
vocabulary.) -/
def containsSub (l s : Buf) : Bool :=
  (List.range l.length).any fun k => s.isPrefixOf (l.drop k)

/-- The request-target classification as the claim words it, phrased over
the target region `rx[po .. po+pl)` as a list slice: a length-1 region
equal to `*` is ASTERISK; else a region starting with `/` is ORIGIN with
the leading slash stripped and path/query split at the first `?` (counted
in neither length); else a region containing `://` is ABSOLUTE with the
same optional query split; else a region with a `:` followed by an ASCII
digit (the digit byte may be the byte just after the region, as the code
reads one byte past it) is AUTHORITY; anything else fails.  The forms are
tested in exactly this priority order. -/
def targetFormSpec (rx : Buf) (po pl : Nat) : Option Target :=
  let region := (rx.drop po).take pl
  let regionPlus := (rx.drop po).take (pl + 1)
  if region = [42] then
    some ⟨po, pl, 0, 0, .asterisk⟩
  else if region.getD 0 0 = 47 then
    match firstIdxOf (region.drop 1) 63 with
    | some j => some ⟨po + 1, j, po + j + 2, pl - j - 2, .origin⟩
    | none => some ⟨po + 1, pl - 1, 0, 0, .origin⟩
  else if containsSub region strSchemeSep then
    match firstIdxOf region 63 with
    | some j => some ⟨po, j, po + j + 1, pl - j - 1, .absolute⟩
    | none => some ⟨po, pl, 0, 0, .absolute⟩
  else if (List.range pl).any (fun k =>
      regionPlus.getD k 0 == 58 && isdigit (regionPlus.getD (k + 1) 0)) then
    some ⟨po, pl, 0, 0, .authority⟩
  else
    none

/-! ## Request-line parser (http.c:662-778) -/

/-- The `hc` fields written by a successful `http_parse_request_line`. -/
structure ReqLine where
  method : Method
  control_data_len : Nat
  target_path_offset : Nat
  target_path_len : Nat
  target_query_offset : Nat
  target_query_len : Nat
  target_form : TargetForm
  rx_buf_offset : Nat
  deriving DecidableEq, Repr

/-- The method offset of the request line (http.c:694): one empty leading
CRLF is tolerated before the request line (RFC 9112 §2.2). -/
def method_offset (rx : Buf) : Nat :=
  if rx.getD 0 0 == 13 && rx.getD 1 0 == 10 then 2 else 0

/-- The method dispatch of `http_parse_request_line` (http.c:695-722):
match `"GET "` / `"POST "` at the method offset, returning the method and
the target offset right after it; otherwise classify by the first byte,
where the C test `rx_buf[method_offset] - 'A' <= 'Z' - 'A'` is `int`
arithmetic (`'A' = 65`, `'Z' - 'A' = 25`), so every first byte `≤ 'Z'` —
including bytes below `'A'` — selects NotImplemented. -/
def parse_method (rx : Buf) (method_offset : Nat) : Except StatusCode (Method × Nat) :=
  if matchAt rx strGETsp method_offset then .ok (.get, method_offset + 4)
  else if matchAt rx strPOSTsp method_offset then .ok (.post, method_offset + 5)
  else if (rx.getD method_offset 0 : Int) - 65 ≤ 25 then .error .notImplemented
  else .error .badRequest

/-- Model of `http_parse_request_line` (http.c:662-778).  Note kept from
the source: the version is searched at `next_line_offset - 11` computed in
`u32` arithmetic (underflows for a request line shorter than 9 bytes, which
can never match and yields BadRequest). -/
def http_parse_request_line (rx : Buf) : Except StatusCode ReqLine :=
  match v_find_index rx 8 0 crlf with
  | none => .error .badRequest
  | some i =>
    let control_data_len := i + 2
    let next_line_offset := control_data_len
    if rx.length < next_line_offset + 2 then .error .badRequest
    else
      match parse_method rx (method_offset rx) with
      | .error e => .error e
      | .ok (method, target_path_offset) =>
        match v_find_index rx (u32_sub next_line_offset 11) 11 strSpHTTP with
        | none => .error .badRequest
        | some iv =>
          if isdigit (rx.getD (iv + 6) 0) then
            if rx.getD (iv + 6) 0 ≠ 49 then .error .versionNotSupported
            else
              let target_len := iv - target_path_offset
              if target_len < 1 then .error .badRequest
              else
                match http_get_target_form rx target_path_offset target_len with
                | none => .error .badRequest
                | some t =>
                  .ok ⟨method, control_data_len, t.path_offset, t.path_len,
                       t.query_offset, t.query_len, t.form, next_line_offset⟩
          else .error .badRequest

/-! ## Status-line parser (http.c:799-884) -/

/-- The `hc` fields written by a successful `http_parse_status_line`. -/
structure StatusLine where
  control_data_len : Nat
  status_code : Nat
  rx_buf_offset : Nat
  deriving DecidableEq, Repr

/-- Model of `http_parse_status_line` (http.c:799-884), `none` for the C
return value `-1` (the client path closes silently, no status code is
produced).  Steps as in the source: first CRLF (at least 12 bytes before
it), one more CRLF afterwards, the `expect_char` chain `HTTP/1.`, a digit
minor version, one or more spaces, three digits in `[100,599]`. -/
def http_parse_status_line (rx : Buf) : Option StatusLine :=
  match v_find_index rx 0 0 crlf with
  | none => none
  | some i =>
    if i < 12 then none
    else
      let control_data_len := i + 2
      let next_line_offset := control_data_len
      if rx.length < next_line_offset + 2 then none
      else if ¬ matchAt rx strHTTP1dot 0 then none
      else if ¬ isdigit (rx.getD 7 0) then none
      else if rx.getD 8 0 ≠ 32 then none
      else
        -- `do p++; if (p == end) fail; while (*p == ' ')`: first non-space at
        -- or after index 9, failing when everything up to the CRLF is spaces
        match (List.range' 9 (i - 9)).find? (fun j => rx.getD j 0 ≠ 32) with
        | none => none
        | some p =>
          if i - p < 3 then none
          else if ¬ (isdigit (rx.getD p 0) && isdigit (rx.getD (p + 1) 0) &&
                     isdigit (rx.getD (p + 2) 0)) then none
          else
            let status_code :=
              100 * (rx.getD p 0 - 48) + 10 * (rx.getD (p + 1) 0 - 48) +
                (rx.getD (p + 2) 0 - 48)
            if status_code < 100 ∨ status_code > 599 then none
            else some ⟨control_data_len, status_code, next_line_offset⟩

/-! ## Header-section identification (http.c:886-917) -/

/-- The fields written by a successful `http_identify_headers`. -/
structure Headers where
  headers_offset : Nat
  headers_len : Nat
  control_data_len : Nat
  deriving DecidableEq, Repr

/-- Model of `http_identify_headers` (http.c:886-917).  `ro` is
`hc->rx_buf_offset`, `cdl` the incoming `hc->control_data_len`, `ho0` the
stale `hc->headers_offset` left untouched by the no-headers branch. -/
def http_identify_headers (rx : Buf) (ro cdl ho0 : Nat) :
    Except StatusCode Headers :=
  if rx.getD ro 0 == 13 && rx.getD (ro + 1) 0 == 10 then
    .ok ⟨ho0, 0, cdl + 2⟩
  else
    match v_find_index rx ro 0 crlfcrlf with
    | none => .error .badRequest
    | some i => .ok ⟨ro, i - ro + 2, cdl + (i - ro + 2) + 2⟩

/-! ## Message-body identification (http.c:919-1025) -/

/-- The fields written by a successful `http_identify_message_body`. -/
structure MsgBody where
  body_len : Nat
  body_offset : Nat
  deriving DecidableEq, Repr

/-- The decimal-accumulation loop of `http_identify_message_body`
(http.c:996-1016): each byte must be a digit; `u64 new_body_len =
body_len * 10 + digit` wraps at `2^64`; the loop rejects only when the
wrapped value is *smaller* than the previous accumulator. -/
def clDigitsAccum : Nat → Buf → Except StatusCode Nat
  | acc, [] => .ok acc
  | acc, c :: rest =>
    if ¬ isdigit c then .error .badRequest
    else
      let newAcc := (acc * 10 + (c - 48)) % 18446744073709551616
      if newAcc < acc then .error .badRequest
      else clDigitsAccum newAcc rest

/-- The exact value a decimal digit string denotes (spec side, no wrap). -/
def decimalValue (ds : Buf) : Nat := ds.foldl (fun a c => a * 10 + (c - 48)) 0

/-- Model of `http_identify_message_body` (http.c:919-1025).  `ho`/`hl` are
`hc->headers_offset`/`hc->headers_len`, `bo0` the stale `hc->body_offset`
(untouched when no Content-Length header is found).  The value slice is the
bytes between `"Content-Length:"` and the next CRLF; leading and trailing
spaces/tabs are skipped exactly as by the two pointer loops of the source
(all-whitespace values fail at the `p == end` check). -/
def http_identify_message_body (rx : Buf) (ho hl bo0 : Nat) :
    Except StatusCode MsgBody :=
  if hl = 0 then .ok ⟨0, bo0⟩
  else
    match v_find_index rx ho hl strContentLength with
    | none => .ok ⟨0, bo0⟩
    | some i =>
      let ro := i + 15
      match v_find_index rx ro hl crlf with
      | none => .error .badRequest
      | some i2 =>
        let value_len := i2 - ro
        if value_len < 1 then .error .badRequest
        else
          let valueSlice := (rx.drop ro).take value_len
          let lead := (valueSlice.takeWhile isWs).length
          if lead = value_len then .error .badRequest
          else
            let rest1 := valueSlice.drop lead
            let trail := (rest1.reverse.takeWhile isWs).length
            if rest1.length - trail < 1 then .error .badRequest
            else
              match clDigitsAccum 0 (rest1.take (rest1.length - trail)) with
              | .error e => .error e
              | .ok n => .ok ⟨n, ho + hl + 2⟩

/-! ## The three-stage server parse pipeline -/

/-- The parsing sequence run by `http_state_wait_client_method`
(http.c:1147-1157) on a freshly accepted connection (whose `hc` fields
start zeroed): request line, then headers, then message body. -/
def parse_request_full (rx : Buf) :
    Except StatusCode (ReqLine × Headers × MsgBody) := do
  let r ← http_parse_request_line rx
  let h ← http_identify_headers rx r.rx_buf_offset r.control_data_len 0
  let b ← http_identify_message_body rx h.headers_offset h.headers_len 0
  pure (r, h, b)

/-! ## State machine: states, results, observable actions -/

/-- `http_state_t`: the fine-grained per-connection HTTP state. -/
inductive HState where
  | idle
  | waitAppMethod
  | waitClientMethod
  | waitServerReply
  | waitAppReply
  | clientIoMoreData
  | appIoMoreData
  deriving DecidableEq, Repr

/-- `http_conn_state_t`: the coarse connection state. -/
inductive ConnState where
  | listen
  | connecting
  | established
  | transportClosed
  | appClosed
  | closed
  deriving DecidableEq, Repr

/-- `http_sm_result_t` (http.c:26-31). -/
inductive SmResult where
  | stop
  | cont
  | error
  deriving DecidableEq, Repr

/-- Model of `http_state_is_rx_valid` (http.c:83-90). -/
def http_state_is_rx_valid (s : HState) : Bool :=
  s == .waitServerReply || s == .clientIoMoreData || s == .waitClientMethod

/-- The externally observable side effects a handler performs, in program
order.  Each constructor names the source call it stands for. -/
inductive Action where
  /-- `http_read_message_drop hc len` (http.c:531-542): drop `len` bytes
  from the transport rx fifo and reset `rx_buf`. -/
  | tsRxDrop (len : Nat)
  /-- `http_read_message_drop_all` (http.c:544-555): drop every byte of the
  transport rx fifo and reset `rx_buf`. -/
  | tsRxDropAll
  /-- `svm_fifo_dequeue_drop_all (ts->tx_fifo)` in `http_ts_rx_callback`. -/
  | tsTxDropAll
  /-- `svm_fifo_dequeue_drop_all (as->tx_fifo)`: drop all app tx bytes. -/
  | appTxDropAll
  /-- `svm_fifo_enqueue_segments (as->rx_fifo, ...)`: hand `n` buffer bytes
  (plus the handoff message header where the source enqueues one) to the
  app rx fifo. -/
  | appRxEnqueue (n : Nat)
  /-- `svm_fifo_add_want_deq_ntf (as->rx_fifo, SVM_FIFO_WANT_DEQ_NOTIF)`. -/
  | appRxWantDeqNtf
  /-- `http_send_data hc data (vec_len data)`: enqueue `data` on the
  transport tx fifo. -/
  | sendData (data : Buf)
  /-- `session_transport_closing_notify`. -/
  | closingNotify
  /-- `session_transport_closed_notify`. -/
  | closedNotify
  /-- `http_disconnect_transport`. -/
  | disconnect
  /-- `app_worker_rx_notify`. -/
  | appRxNotify
  /-- `session_enqueue_notify (ts)` re-arming rx processing. -/
  | enqueueNotify
  deriving DecidableEq, Repr

/-- The outcome of one state-machine handler invocation: the returned
`http_sm_result_t`, the observable actions in order, the resulting
`hc->http_state`, the new `hc->to_recv` (`none` when untouched) and the
`http_status_code_t` out-parameter `ec` (`none` when no error was set). -/
structure SmOut where
  result : SmResult
  actions : List Action
  httpState : HState
  toRecv : Option Nat
  errorCode : Option StatusCode
  deriving DecidableEq, Repr

/-! ## Response/request formatting (http.c:440-466, 492-508) -/

/-- Decimal ASCII digits of `n` (the `%llu` conversion). -/
def natDigitsAux : Nat → Nat → Buf
  | 0, _ => []
  | fuel + 1, n => if n < 10 then [48 + n] else natDigitsAux fuel (n / 10) ++ [48 + n % 10]

/-- Decimal ASCII representation of `n`. -/
def natToDecimal (n : Nat) : Buf := natDigitsAux (n + 1) n

/-- `http_error_template` (http.c:440-443) instantiated with a status-code
string and a formatted date:
`"HTTP/1.1 %s\r\nDate: %U GMT\r\nConnection: close\r\nContent-Length: 0\r\n\r\n"`. -/
def http_error_template (status date : Buf) : Buf :=
  str2bytes ("HTTP/1.1 ") ++ status ++ crlf ++
  str2bytes ("Date: ") ++ date ++ str2bytes (" GMT") ++ crlf ++
  str2bytes ("Connection: close") ++ crlf ++
  str2bytes ("Content-Length: 0") ++ crlf ++ crlf

/-- `http_response_template` (http.c:448-452):
`"HTTP/1.1 %s\r\nDate: %U GMT\r\nServer: %v\r\nContent-Length: %llu\r\n%s"`,
where the trailing `%s` is `""` when the app supplied headers and `"\r\n"`
otherwise (http.c:1278). -/
def http_response_template (status date server : Buf) (bodyLen headersLen : Nat) : Buf :=
  str2bytes ("HTTP/1.1 ") ++ status ++ crlf ++
  str2bytes ("Date: ") ++ date ++ str2bytes (" GMT") ++ crlf ++
  str2bytes ("Server: ") ++ server ++ crlf ++
  str2bytes ("Content-Length: ") ++ natToDecimal bodyLen ++ crlf ++
  (if headersLen ≠ 0 then [] else crlf)

/-- `http_get_request_template` (http.c:457-460). -/
def http_get_request_template (target host userAgent : Buf) (headersLen : Nat) : Buf :=
  str2bytes ("GET ") ++ target ++ str2bytes (" HTTP/1.1") ++ crlf ++
  str2bytes ("Host: ") ++ host ++ crlf ++
  str2bytes ("User-Agent: ") ++ userAgent ++ crlf ++
  (if headersLen ≠ 0 then [] else crlf)

/-- `http_post_request_template` (http.c:462-466). -/
def http_post_request_template (target host userAgent : Buf) (bodyLen headersLen : Nat) : Buf :=
  str2bytes ("POST ") ++ target ++ str2bytes (" HTTP/1.1") ++ crlf ++
  str2bytes ("Host: ") ++ host ++ crlf ++
  str2bytes ("User-Agent: ") ++ userAgent ++ crlf ++
  str2bytes ("Content-Length: ") ++ natToDecimal bodyLen ++ crlf ++
  (if headersLen ≠ 0 then [] else crlf)

/-- Modelled from the spec: the status-line strings of
`http_status_code_str` live in `http_status_codes.h`, which is not part of
this repository's source; the spec fixes the entries used on the server
error path (scenario 4 gives `400 Bad Request`, failure semantics give
`501`, `505`, `500`). -/
def http_status_code_str (sc : StatusCode) : Buf :=
  match sc with
  | .badRequest => str2bytes ("400 Bad Request")
  | .notImplemented => str2bytes ("501 Not Implemented")
  | .versionNotSupported => str2bytes ("505 HTTP Version Not Supported")
  | .internalError => str2bytes ("500 Internal Server Error")

/-- `http_send_error hc ec` (http.c:492-508) as an action: format
`http_error_template` with the status string and the current date and hand
it to `http_send_data`.  (`statusStr` abstracts the `http_status_code_str`
table; the `ec >= HTTP_N_STATUS` clamp is the identity on the error codes
the parser can produce.) -/
def http_send_error (statusStr : StatusCode → Buf) (date : Buf) (ec : StatusCode) : Action :=
  .sendData (http_error_template (statusStr ec) date)

/-! ## Server rx handler: `http_state_wait_client_method` (http.c:1122-1223) -/

/-- Model of `http_state_wait_client_method`.  Inputs: the peeked transport
rx bytes `rxBuf` (`http_read_message` fails exactly when the fifo is
empty), the app rx fifo free space `maxEnq` (`svm_fifo_max_enqueue`), and
the stale `hc->headers_offset`/`hc->body_offset` values `ho0`/`bo0` (zero
on a fresh connection).  The subtractions `len - control_data_len` and
`body_len - body_sent` are `u32`/`u64` in the source; they cannot underflow
because a successful parse guarantees `control_data_len ≤ rxBuf.length`
(lemma `control_data_len_le_length`) and `len ≤ control_data_len +
body_len`. -/
def http_state_wait_client_method (statusStr : StatusCode → Buf) (date : Buf)
    (rxBuf : Buf) (maxEnq ho0 bo0 : Nat) : SmOut :=
  if rxBuf.length = 0 then ⟨.stop, [], .waitClientMethod, none, none⟩
  else
    let err : StatusCode → SmOut := fun ec =>
      ⟨.error,
       [.tsRxDropAll, http_send_error statusStr date ec, .closingNotify, .disconnect],
       .waitClientMethod, none, some ec⟩
    if rxBuf.length < 8 then err .badRequest
    else
      match http_parse_request_line rxBuf with
      | .error ec => err ec
      | .ok r =>
        match http_identify_headers rxBuf r.rx_buf_offset r.control_data_len ho0 with
        | .error ec => err ec
        | .ok h =>
          match http_identify_message_body rxBuf h.headers_offset h.headers_len bo0 with
          | .error ec => err ec
          | .ok b =>
            if maxEnq < h.control_data_len then err .internalError
            else
              let maxDeq := min (h.control_data_len + b.body_len) rxBuf.length
              let len := min maxEnq maxDeq
              let body_sent := len - h.control_data_len
              let to_recv := b.body_len - body_sent
              if to_recv = 0 then
                ⟨.stop, [.appRxEnqueue len, .tsRxDropAll, .appRxNotify],
                 .waitAppReply, some 0, none⟩
              else
                ⟨.stop, [.appRxEnqueue len, .tsRxDrop len, .appRxNotify],
                 .clientIoMoreData, some to_recv, none⟩

/-! ## Client rx handler: `http_state_wait_server_reply` (http.c:1027-1120) -/

/-- Model of `http_state_wait_server_reply`.  `msgSize` is
`sizeof (http_msg_t)`; `max_enq -= sizeof (msg)` is `u32` arithmetic, kept
as `u32_sub`.  On any parse failure the client closes silently (drop all,
closing + closed notify, disconnect); on success the handoff message plus
`len = min maxEnq (vec_len rx_buf)` bytes are enqueued and exactly `len`
bytes are dropped from the transport rx fifo — never a drop-all. -/
def http_state_wait_server_reply (msgSize : Nat) (rxBuf : Buf)
    (maxEnqRaw ho0 bo0 : Nat) : SmOut :=
  if rxBuf.length = 0 then ⟨.stop, [], .waitServerReply, none, none⟩
  else
    let err : SmOut :=
      ⟨.error, [.tsRxDropAll, .closingNotify, .closedNotify, .disconnect],
       .waitServerReply, none, none⟩
    if rxBuf.length < 8 then err
    else
      match http_parse_status_line rxBuf with
      | none => err
      | some sl =>
        match http_identify_headers rxBuf sl.rx_buf_offset sl.control_data_len ho0 with
        | .error _ => err
        | .ok h =>
          match http_identify_message_body rxBuf h.headers_offset h.headers_len bo0 with
          | .error _ => err
          | .ok b =>
            let maxEnq := u32_sub maxEnqRaw msgSize
            if maxEnq < h.control_data_len then err
            else
              let len := min maxEnq rxBuf.length
              let body_sent := len - h.control_data_len
              let to_recv := b.body_len - body_sent
              if to_recv = 0 then
                ⟨.stop, [.appRxEnqueue len, .tsRxDrop len, .appRxNotify],
                 .waitAppMethod, some 0, none⟩
              else
                ⟨.stop, [.appRxEnqueue len, .tsRxDrop len, .appRxNotify],
                 .clientIoMoreData, some to_recv, none⟩

/-! ## Body streaming: `http_state_client_io_more_data` (http.c:1495-1564) -/

/-- Model of `http_state_client_io_more_data`.  `maxDeq`/`maxEnq` are the
transport rx occupancy and app rx free space; `chunk` is the length of the
first contiguous readable region of the transport rx fifo (a property of
the fifo state, `chunk ≤ maxDeq`, positive when `maxDeq` is);
`svm_fifo_segments` with one segment returns `min chunk max_len` bytes and
the enqueue of that many bytes (at most `maxEnq`) succeeds in full. -/
def http_state_client_io_more_data (maxDeq maxEnq toRecv : Nat)
    (isServer : Bool) (chunk : Nat) : SmOut :=
  if maxDeq = 0 then ⟨.stop, [], .clientIoMoreData, some toRecv, none⟩
  else if maxEnq = 0 then
    ⟨.stop, [.appRxWantDeqNtf], .clientIoMoreData, some toRecv, none⟩
  else
    let maxLen := min maxEnq maxDeq
    let rv := min chunk maxLen
    if toRecv < rv then
      ⟨.error, [.appRxEnqueue rv, .tsRxDrop rv, .closingNotify, .disconnect],
       .waitAppMethod, some toRecv, none⟩
    else
      let toRecv2 := toRecv - rv
      let st : HState :=
        if toRecv2 = 0 then (if isServer then .waitAppReply else .waitAppMethod)
        else .clientIoMoreData
      let tail : List Action := if maxDeq - rv ≠ 0 then [.enqueueNotify] else []
      ⟨.stop, [.appRxEnqueue rv, .tsRxDrop rv, .appRxNotify] ++ tail,
       st, some toRecv2, none⟩

/-! ## Handoff messages (transport ⇄ app) -/

/-- `http_msg_type_t`: REQUEST or REPLY. -/
inductive MsgType where
  | request
  | reply
  deriving DecidableEq, Repr

/-- The `msg.method_type` as checked by `http_state_wait_app_method`
(http.c:1387, 1412, 1443): GET, POST, or any other (unsupported) value. -/
inductive MethodType where
  | get
  | post
  | other
  deriving DecidableEq, Repr

/-- The fields of an application handoff message `http_msg_t` the handlers
inspect.  `dataType` is the numeric `msg.data.type` (`0` = INLINE, `1` =
PTR, larger values invalid); `code` is the numeric `http_status_code_t`
enum value of a reply. -/
structure HttpMsg where
  type : MsgType
  methodType : MethodType
  code : Nat
  dataType : Nat
  headersLen : Nat
  bodyLen : Nat
  deriving DecidableEq, Repr

/-! ## Server tx handler: `http_state_wait_app_reply` (http.c:1225-1338) -/

/-- Model of `http_state_wait_app_reply`.  `nStatus` abstracts
`HTTP_N_STATUS` (from the header not in this repository), `codeStr` the
status string `http_status_code_str[msg.code]`, `appHeaders` the header
bytes supplied by the app (dequeued inline or dereferenced from the
pointer), and `tsTxFree` the free space of the transport tx fifo, so that
`http_send_data` returns `min (min len 65536) tsTxFree` bytes sent.
The error label (http.c:1332-1337) sends an error response, moves the
state back to WAIT_CLIENT_METHOD, notifies closing and disconnects —
it does not drop app tx bytes and does not notify closed. -/
def http_state_wait_app_reply (statusStr : StatusCode → Buf) (nStatus : Nat)
    (date appName codeStr appHeaders : Buf) (msg : HttpMsg) (tsTxFree : Nat) : SmOut :=
  let errActs : StatusCode → List Action := fun sc =>
    [http_send_error statusStr date sc, .closingNotify, .disconnect]
  if 1 < msg.dataType then
    ⟨.stop, errActs .internalError, .waitClientMethod, none, some .internalError⟩
  else if msg.type ≠ .reply then
    ⟨.stop, errActs .internalError, .waitClientMethod, none, some .internalError⟩
  else if nStatus ≤ msg.code then
    ⟨.error, [], .waitAppReply, none, none⟩
  else
    let response := http_response_template codeStr date appName msg.bodyLen msg.headersLen ++
      (if msg.headersLen ≠ 0 then appHeaders else [])
    let sent := min (min response.length 65536) tsTxFree
    if sent ≠ response.length then
      ⟨.stop, .sendData response :: errActs .internalError,
       .waitClientMethod, none, some .internalError⟩
    else if msg.bodyLen ≠ 0 then
      ⟨.cont, [.sendData response], .appIoMoreData, none, none⟩
    else
      ⟨.stop, [.sendData response], .waitClientMethod, none, none⟩

/-! ## Client tx handler: `http_state_wait_app_method` (http.c:1340-1493) -/

/-- Model of `http_state_wait_app_method`.  `target` is the request target
dequeued from the app tx fifo (inline or via pointer).  The error label
(http.c:1483-1488) drops all app tx bytes, notifies closing and closed,
and disconnects; a short transport send reaches the same label after the
`http_send_data` call. -/
def http_state_wait_app_method (appName host target appHeaders : Buf)
    (msg : HttpMsg) (tsTxFree : Nat) : SmOut :=
  let errActs : List Action := [.appTxDropAll, .closingNotify, .closedNotify, .disconnect]
  let errOut : SmOut := ⟨.error, errActs, .waitAppMethod, none, none⟩
  if 1 < msg.dataType then errOut
  else if msg.type ≠ .request then errOut
  else
    match msg.methodType with
    | .get =>
      if msg.bodyLen ≠ 0 then errOut
      else
        let request := http_get_request_template target host appName msg.headersLen ++
          (if msg.headersLen ≠ 0 then appHeaders else [])
        let sent := min (min request.length 65536) tsTxFree
        if sent ≠ request.length then
          ⟨.error, .sendData request :: errActs, .waitAppMethod, none, none⟩
        else
          ⟨.stop, [.sendData request], .waitServerReply, none, none⟩
    | .post =>
      if msg.bodyLen = 0 then errOut
      else
        let request := http_post_request_template target host appName msg.bodyLen msg.headersLen ++
          (if msg.headersLen ≠ 0 then appHeaders else [])
        let sent := min (min request.length 65536) tsTxFree
        if sent ≠ request.length then
          ⟨.error, .sendData request :: errActs, .waitAppMethod, none, none⟩
        else
          ⟨.cont, [.sendData request], .appIoMoreData, none, none⟩
    | .other => errOut

/-! ## Transport rx callback: `http_ts_rx_callback` (http.c:1652-1686) -/

/-- What the rx callback does before (or instead of) dispatching. -/
structure RxCallback where
  droppedTsTxAll : Bool
  ranStateMachine : Bool
  deriving DecidableEq, Repr

/-- Model of `http_ts_rx_callback` (http.c:1652-1686): a closed connection
or one whose HTTP state is not rx-valid gets its session tx fifo drained
and the callback returns; otherwise the state machine runs. -/
def http_ts_rx_callback (cs : ConnState) (hs : HState) : RxCallback :=
  if cs = .closed then ⟨true, false⟩
  else if ¬ http_state_is_rx_valid hs then ⟨true, false⟩
  else ⟨false, true⟩

/-! ## Supporting lemmas about slices and searches -/

/-- The target region `rx[po .. po+pl)` has length `pl` when it fits. -/
theorem length_region (rx : Buf) (po pl : Nat) (h : po + pl ≤ rx.length) :
    ((rx.drop po).take pl).length = pl := by
  rw [List.length_take, List.length_drop]
  omega

/-- Reading the region at `k` is reading `rx` at `po + k`. -/
theorem getD_region (rx : Buf) (po pl k : Nat) (hk : k < pl) :
    ((rx.drop po).take pl).getD k 0 = rx.getD (po + k) 0 := by
  rw [List.getD_eq_getElem?_getD, List.getD_eq_getElem?_getD,
    List.getElem?_take_of_lt hk, List.getElem?_drop]

/-- Dropping then reading is reading at the shifted index. -/
theorem getD_drop (l : Buf) (k j : Nat) :
    (l.drop k).getD j 0 = l.getD (k + j) 0 := by
  rw [List.getD_eq_getElem?_getD, List.getD_eq_getElem?_getD, List.getElem?_drop]

/-- `find?` only depends on the predicate's values on the list. -/
theorem find?_congr {α : Type} (p q : α → Bool) (l : List α)
    (h : ∀ a ∈ l, p a = q a) : l.find? p = l.find? q := by
  induction l with
  | nil => rfl
  | cons a l ih =>
    simp only [List.find?_cons]
    rw [h a (List.mem_cons_self a l)]
    cases hq : q a
    · exact ih fun x hx => h x (List.mem_cons_of_mem a hx)
    · rfl

/-- A byte search over absolute indices `[po, po+pl)` of `rx` is the
search for the first such byte of the region slice, shifted by `po`. -/
theorem find?_range'_byteD (rx : Buf) (c po pl : Nat) (h : po + pl ≤ rx.length) :
    (List.range' po pl).find? (fun i => rx.getD i 0 == c) =
      (firstIdxOf ((rx.drop po).take pl) c).map (po + ·) := by
  rw [List.range'_eq_map_range, List.find?_map]
  unfold firstIdxOf
  rw [length_region rx po pl h]
  refine congrArg (Option.map _) (find?_congr _ _ _ fun k hk => ?_)
  rw [List.mem_range] at hk
  rw [Function.comp_apply, getD_region rx po pl k hk]

/-- A `firstIdxOf` hit is inside the list. -/
theorem firstIdxOf_lt (l : Buf) (c j : Nat) (h : firstIdxOf l c = some j) :
    j < l.length := by
  have := List.mem_of_find?_eq_some h
  rwa [List.mem_range] at this

/-- Dropping the leading byte of the region shifts the slice window. -/
theorem region_drop_one (rx : Buf) (po pl : Nat) :
    ((rx.drop po).take pl).drop 1 = (rx.drop (po + 1)).take (pl - 1) := by
  cases pl with
  | zero => simp
  | succ n =>
    rw [List.take_drop, List.take_drop, List.drop_drop]
    have h1 : po + (n + 1) = po + 1 + (n + 1 - 1) := by omega
    rw [h1]

/-- The region is the one-byte list `[42]` iff it has length 1 and its
byte, `rx[po]`, is `42`. -/
theorem region_singleton_iff (rx : Buf) (po pl : Nat) (hpl : 1 ≤ pl)
    (h : po + pl ≤ rx.length) :
    (rx.drop po).take pl = [42] ↔ (rx.getD po 0 = 42 ∧ pl = 1) := by
  constructor
  · intro hc
    have hlen1 : pl = 1 := by
      have := length_region rx po pl h
      rw [hc] at this
      simpa using this.symm
    refine ⟨?_, hlen1⟩
    have := getD_region rx po pl 0 (by omega)
    rw [hc] at this
    simpa using this.symm
  · rintro ⟨h42, rfl⟩
    have hlen1 : ((rx.drop po).take 1).length = 1 := length_region rx po 1 h
    obtain ⟨a, ha⟩ := List.length_eq_one.mp hlen1
    have hget := getD_region rx po 1 0 (by omega)
    rw [ha] at hget
    simp only [List.getD_cons_zero] at hget
    rw [ha]
    have ha42 : a = 42 := by
      rw [hget]
      simpa using h42
    rw [ha42]

/-- `matchAt` spelled out: all bytes of `str` appear in `vec` at `i`. -/
theorem matchAt_iff (vec str : Buf) (i : Nat) :
    matchAt vec str i = true ↔ ∀ j < str.length, vec.getD (i + j) 0 = str.getD j 0 := by
  simp [matchAt, List.mem_range]

/-- `isPrefixOf` spelled out over `getD`, given the prefix fits. -/
theorem isPrefixOf_iff_getD (s t : Buf) (hlen : s.length ≤ t.length) :
    s.isPrefixOf t = true ↔ ∀ j < s.length, s.getD j 0 = t.getD j 0 := by
  induction s generalizing t with
  | nil => simp
  | cons a s ih =>
    cases t with
    | nil => simp at hlen
    | cons b t =>
      simp only [List.isPrefixOf_cons₂, Bool.and_eq_true, beq_iff_eq]
      rw [ih t (by simpa using hlen)]
      constructor
      · rintro ⟨rfl, hrest⟩ j hj
        cases j with
        | zero => simp
        | succ j' => simpa using hrest j' (by simpa using hj)
      · intro hall
        refine ⟨by simpa using hall 0 (by simp), fun j hj => ?_⟩
        simpa using hall (j + 1) (by simpa using hj)

/-- No substring longer than the list occurs in it. -/
theorem containsSub_eq_false_of_short (l s : Buf) (h : l.length < s.length) :
    containsSub l s = false := by
  unfold containsSub
  cases hany : (List.range l.length).any fun k => s.isPrefixOf (l.drop k) with
  | false => rfl
  | true =>
    exfalso
    obtain ⟨k, _, hp⟩ := List.any_eq_true.mp hany
    have hlen := (List.isPrefixOf_iff_prefix.mp hp).length_le
    rw [List.length_drop] at hlen
    omega

/-- The source's absolute-form test — `v_find_index` over the absolute
window with a positive hit index — agrees with "the region slice contains
the needle", for a window that starts past index 0 and does not reach the
end of the buffer (as every request target does, being followed by
`" HTTP/"`). -/
theorem v_find_presence_iff (rx s : Buf) (po pl : Nat) (hs : 0 < s.length)
    (hpo : 1 ≤ po) (hpl : pl ≠ 0) (h : po + pl < rx.length) :
    (match v_find_index rx po pl s with
      | some i => decide (0 < i)
      | none => false) = true ↔
    containsSub ((rx.drop po).take pl) s = true := by
  have hle : po + pl ≤ rx.length := by omega
  have hreglen := length_region rx po pl hle
  by_cases hshort : pl < s.length
  · have hv : v_find_index rx po pl s = none := by
      unfold v_find_index
      dsimp only
      by_cases hg : rx.length ≤ s.length
      · rw [if_pos hg]
      · rw [if_neg hg, if_pos ⟨hpl, hshort⟩]
    rw [hv]
    rw [containsSub_eq_false_of_short ((rx.drop po).take pl) s (by omega)]
  · push_neg at hshort
    have hvlen : ¬ (rx.length ≤ s.length) := by omega
    have hg2 : ¬ (pl ≠ 0 ∧ pl < s.length) := fun hc => absurd hc.2 (by omega)
    unfold v_find_index
    dsimp only
    rw [if_neg hvlen, if_neg hg2, if_neg hpl]
    rw [Nat.min_eq_right (by omega : po + pl - s.length ≤ rx.length - s.length)]
    rw [show po + pl - s.length + 1 - po = pl - s.length + 1 by omega]
    constructor
    · intro hmatch
      cases hf : (List.range' po (pl - s.length + 1)).find? (fun i => matchAt rx s i) with
      | none => rw [hf] at hmatch; simp at hmatch
      | some i =>
        rw [hf] at hmatch
        have hmem := List.mem_of_find?_eq_some hf
        rw [List.mem_range'_1] at hmem
        have hAt := List.find?_some hf
        unfold containsSub
        rw [List.any_eq_true]
        refine ⟨i - po, by rw [List.mem_range, hreglen]; omega, ?_⟩
        rw [isPrefixOf_iff_getD s _ (by rw [List.length_drop, hreglen]; omega)]
        intro j hj
        rw [getD_drop, getD_region rx po pl ((i - po) + j) (by omega)]
        have hbyte := (matchAt_iff rx s i).mp hAt j hj
        rw [show po + ((i - po) + j) = i + j by omega]
        exact hbyte.symm
    · intro hcs
      obtain ⟨k, hk, hp⟩ := List.any_eq_true.mp hcs
      rw [List.mem_range, hreglen] at hk
      have hple : s.length ≤ pl - k := by
        have hl2 := (List.isPrefixOf_iff_prefix.mp hp).length_le
        rw [List.length_drop, hreglen] at hl2
        exact hl2
      have hpre := (isPrefixOf_iff_getD s _
        (by rw [List.length_drop, hreglen]; omega)).mp hp
      have hex : ∃ x, x ∈ List.range' po (pl - s.length + 1) ∧ matchAt rx s x = true := by
        refine ⟨po + k, by rw [List.mem_range'_1]; omega, ?_⟩
        rw [matchAt_iff]
        intro j hj
        have hbyte := hpre j hj
        rw [getD_drop, getD_region rx po pl (k + j) (by omega)] at hbyte
        rw [show po + k + j = po + (k + j) by omega]
        exact hbyte.symm
      cases hf : (List.range' po (pl - s.length + 1)).find? (fun i => matchAt rx s i) with
      | none =>
        have := List.find?_isSome.mpr hex
        rw [hf] at this
        simp at this
      | some i =>
        have hmem := List.mem_of_find?_eq_some hf
        rw [List.mem_range'_1] at hmem
        simp only [decide_eq_true_eq]
        omega

/-- The source's authority scan over absolute indices agrees with the
claim's scan over the region (extended by one byte, since the digit test
reads the byte after a final `:`). -/
theorem authority_scan_iff (rx : Buf) (po pl : Nat) :
    ((List.range' po pl).find? fun i =>
        rx.getD i 0 == 58 && isdigit (rx.getD (i + 1) 0)).isSome = true ↔
    ((List.range pl).any fun k =>
        ((rx.drop po).take (pl + 1)).getD k 0 == 58 &&
          isdigit (((rx.drop po).take (pl + 1)).getD (k + 1) 0)) = true := by
  rw [List.find?_isSome, List.any_eq_true]
  constructor
  · rintro ⟨i, hi, hp⟩
    rw [List.mem_range'_1] at hi
    refine ⟨i - po, by rw [List.mem_range]; omega, ?_⟩
    rw [getD_region rx po (pl + 1) (i - po) (by omega),
      getD_region rx po (pl + 1) ((i - po) + 1) (by omega)]
    rw [show po + (i - po) = i by omega, show po + ((i - po) + 1) = i + 1 by omega]
    exact hp
  · rintro ⟨k, hk, hp⟩
    rw [List.mem_range] at hk
    refine ⟨po + k, by rw [List.mem_range'_1]; omega, ?_⟩
    rw [getD_region rx po (pl + 1) k (by omega),
      getD_region rx po (pl + 1) (k + 1) (by omega)] at hp
    rw [show po + k + 1 = po + (k + 1) by omega]
    exact hp

/-- C6: request-target classification.  `http_get_target_form` agrees with
the claim's region-slice classification `targetFormSpec`: a length-1 `*`
region is ASTERISK; else a leading `/` gives ORIGIN with the slash
stripped and path/query split at the first `?` (counted in neither
length); else a contained `://` gives ABSOLUTE with the same query split;
else a `:` followed by an ASCII digit gives AUTHORITY; anything else
fails — in exactly this priority order.  The window sits at a positive
offset and strictly inside the buffer, as every request target does
(preceded by the method, followed by `" HTTP/"`). -/
theorem target_form_classification (rx : Buf) (po pl : Nat)
    (hpl : 1 ≤ pl) (hpo : 1 ≤ po) (hlen : po + pl < rx.length) :
    http_get_target_form rx po pl = targetFormSpec rx po pl := by
  have hle : po + pl ≤ rx.length := Nat.le_of_lt hlen
  have hget0 : ((rx.drop po).take pl).getD 0 0 = rx.getD po 0 := by
    rw [getD_region rx po pl 0 (by omega), Nat.add_zero]
  simp only [http_get_target_form, targetFormSpec, http_identify_optional_query]
  by_cases hast : (rx.drop po).take pl = [42]
  · obtain ⟨h42, h1⟩ := (region_singleton_iff rx po pl hpl hle).mp hast
    rw [if_pos (show (rx.getD po 0 == 42 && pl == 1) = true by rw [h42, h1]; decide),
      if_pos hast]
  · have hcf : ¬ ((rx.getD po 0 == 42 && pl == 1) = true) := by
      intro hc
      rw [Bool.and_eq_true] at hc
      exact hast ((region_singleton_iff rx po pl hpl hle).mpr
        ⟨eq_of_beq hc.1, by simpa using hc.2⟩)
    rw [if_neg hcf, if_neg hast]
    by_cases hsl : rx.getD po 0 = 47
    · rw [if_pos (show (rx.getD po 0 == 47) = true by rw [hsl]; decide),
        if_pos (show ((rx.drop po).take pl).getD 0 0 = 47 by rw [hget0]; exact hsl)]
      rw [find?_range'_byteD rx 63 (po + 1) (pl - 1) (by omega), region_drop_one rx po pl]
      cases hq : firstIdxOf ((rx.drop (po + 1)).take (pl - 1)) 63 with
      | none => dsimp only [Option.map_none']
      | some j =>
        have hj : j < pl - 1 := by
          have hlt := firstIdxOf_lt _ _ _ hq
          rwa [length_region rx (po + 1) (pl - 1) (by omega)] at hlt
        dsimp only [Option.map_some']
        simp only [Option.some.injEq, Target.mk.injEq]
        refine ⟨trivial, by omega, by omega, by omega, trivial⟩
    · have hslspec : ¬ (((rx.drop po).take pl).getD 0 0 = 47) := by
        rw [hget0]; exact hsl
      rw [if_neg (show ¬ ((rx.getD po 0 == 47) = true) by simpa using hsl),
        if_neg hslspec]
      by_cases habs : containsSub ((rx.drop po).take pl) strSchemeSep = true
      · have hm := (v_find_presence_iff rx strSchemeSep po pl (by decide) hpo
          (by omega) hlen).mpr habs
        rw [if_pos hm, if_pos habs]
        rw [find?_range'_byteD rx 63 po pl hle]
        cases hq : firstIdxOf ((rx.drop po).take pl) 63 with
        | none => dsimp only [Option.map_none']
        | some j =>
          have hj : j < pl := by
            have hlt := firstIdxOf_lt _ _ _ hq
            rwa [length_region rx po pl hle] at hlt
          dsimp only [Option.map_some']
          simp only [Option.some.injEq, Target.mk.injEq]
          refine ⟨trivial, by omega, trivial, by omega, trivial⟩
      · have hm : ¬ ((match v_find_index rx po pl strSchemeSep with
            | some i => decide (0 < i)
            | none => false) = true) := fun hc =>
          habs ((v_find_presence_iff rx strSchemeSep po pl (by decide) hpo
            (by omega) hlen).mp hc)
        rw [if_neg hm, if_neg habs]
        by_cases hauth : ((List.range pl).any fun k =>
            ((rx.drop po).take (pl + 1)).getD k 0 == 58 &&
              isdigit (((rx.drop po).take (pl + 1)).getD (k + 1) 0)) = true
        · rw [if_pos ((authority_scan_iff rx po pl).mpr hauth), if_pos hauth]
        · rw [if_neg (fun hc => hauth ((authority_scan_iff rx po pl).mp hc)),
            if_neg hauth]

/-- Witness for the C6 classification theorem at the concrete request
target `/a?b` of `GET /a?b HTTP/1.1`: the hypotheses hold and both sides
classify it as ORIGIN with path `a` and query `b`. -/
theorem target_form_classification_witness :
    (1 ≤ 4 ∧ 4 + 4 < (str2bytes ("GET /a?b HTTP/1.1")).length) ∧
    http_get_target_form (str2bytes ("GET /a?b HTTP/1.1")) 4 4 =
      targetFormSpec (str2bytes ("GET /a?b HTTP/1.1")) 4 4 ∧
    http_get_target_form (str2bytes ("GET /a?b HTTP/1.1")) 4 4 =
      some ⟨5, 1, 7, 1, .origin⟩ :=
  ⟨⟨by decide, by decide⟩,
    target_form_classification (str2bytes ("GET /a?b HTTP/1.1")) 4 4
      (by decide) (by decide) (by decide),
    by decide⟩

/-! ## Supporting lemmas about the parsers -/

/-- A successful `v_find_index` hit lies after `offset` and the match fits
inside the vector (which is strictly longer than the needle). -/
theorem v_find_index_some (vec str : Buf) (offset num i : Nat)
    (h : v_find_index vec offset num str = some i) :
    offset ≤ i ∧ i + str.length ≤ vec.length ∧ str.length < vec.length := by
  unfold v_find_index at h
  dsimp only at h
  by_cases h1 : vec.length ≤ str.length
  · rw [if_pos h1] at h; cases h
  · rw [if_neg h1] at h
    by_cases h2 : num ≠ 0 ∧ num < str.length
    · rw [if_pos h2] at h; cases h
    · rw [if_neg h2] at h
      have hm := List.mem_of_find?_eq_some h
      rw [List.mem_range'_1] at hm
      obtain ⟨hle, hlt⟩ := hm
      refine ⟨hle, ?_, by omega⟩
      by_cases h3 : num = 0
      · rw [if_pos h3] at hlt; omega
      · rw [if_neg h3, Nat.min_def] at hlt
        split at hlt <;> omega

/-- Facts about any successful request-line parse: `rx_buf_offset` equals
`control_data_len` (both are set to `next_line_offset`), the request line
starts at least 8 bytes in (so `control_data_len ≥ 10`), and the buffer
still holds one more CRLF (`control_data_len + 2 ≤ rx.length`). -/
theorem parse_request_line_ok_inv (rx : Buf) (r : ReqLine)
    (h : http_parse_request_line rx = .ok r) :
    r.rx_buf_offset = r.control_data_len ∧ 10 ≤ r.control_data_len ∧
    r.control_data_len + 2 ≤ rx.length := by
  cases hf : v_find_index rx 8 0 crlf with
  | none =>
    simp only [http_parse_request_line, hf] at h
    exact Except.noConfusion h
  | some i =>
    simp only [http_parse_request_line, hf] at h
    have hv := v_find_index_some rx crlf 8 0 i hf
    simp only [crlf, List.length_cons, List.length_nil] at hv
    by_cases c1 : rx.length < i + 2 + 2
    · rw [if_pos c1] at h; exact Except.noConfusion h
    · rw [if_neg c1] at h
      cases hm : parse_method rx (method_offset rx) with
      | error e => rw [hm] at h; exact Except.noConfusion h
      | ok mt =>
        obtain ⟨method, tpo⟩ := mt
        rw [hm] at h
        dsimp only at h
        cases hv2 : v_find_index rx (u32_sub (i + 2) 11) 11 strSpHTTP with
        | none => rw [hv2] at h; exact Except.noConfusion h
        | some iv =>
          rw [hv2] at h
          dsimp only at h
          by_cases c2 : isdigit (rx.getD (iv + 6) 0) = true
          · rw [if_pos c2] at h
            by_cases c3 : rx.getD (iv + 6) 0 ≠ 49
            · rw [if_pos c3] at h; exact Except.noConfusion h
            · rw [if_neg c3] at h
              by_cases c4 : iv - tpo < 1
              · rw [if_pos c4] at h; exact Except.noConfusion h
              · rw [if_neg c4] at h
                cases ht : http_get_target_form rx tpo (iv - tpo) with
                | none => rw [ht] at h; exact Except.noConfusion h
                | some t =>
                  rw [ht] at h
                  dsimp only at h
                  cases h
                  refine ⟨rfl, ?_, ?_⟩ <;> dsimp only <;> omega
          · rw [if_neg c2] at h; exact Except.noConfusion h

/-- Facts about any successful status-line parse: `rx_buf_offset` equals
`control_data_len`, the status line is at least 12 bytes
(`control_data_len ≥ 14`), and one more CRLF fits. -/
theorem parse_status_line_ok_inv (rx : Buf) (sl : StatusLine)
    (h : http_parse_status_line rx = some sl) :
    sl.rx_buf_offset = sl.control_data_len ∧ 14 ≤ sl.control_data_len ∧
    sl.control_data_len + 2 ≤ rx.length := by
  cases hf : v_find_index rx 0 0 crlf with
  | none =>
    simp only [http_parse_status_line, hf] at h
    exact Option.noConfusion h
  | some i =>
    simp only [http_parse_status_line, hf] at h
    by_cases c1 : i < 12
    · rw [if_pos c1] at h; exact Option.noConfusion h
    · rw [if_neg c1] at h
      by_cases c2 : rx.length < i + 2 + 2
      · rw [if_pos c2] at h; exact Option.noConfusion h
      · rw [if_neg c2] at h
        by_cases c3 : ¬ matchAt rx strHTTP1dot 0 = true
        · rw [if_pos c3] at h; exact Option.noConfusion h
        · rw [if_neg c3] at h
          by_cases c4 : ¬ isdigit (rx.getD 7 0) = true
          · rw [if_pos c4] at h; exact Option.noConfusion h
          · rw [if_neg c4] at h
            by_cases c5 : rx.getD 8 0 ≠ 32
            · rw [if_pos c5] at h; exact Option.noConfusion h
            · rw [if_neg c5] at h
              cases hp : (List.range' 9 (i - 9)).find? (fun j => rx.getD j 0 ≠ 32) with
              | none => rw [hp] at h; exact Option.noConfusion h
              | some p =>
                rw [hp] at h
                dsimp only at h
                by_cases c6 : i - p < 3
                · rw [if_pos c6] at h; exact Option.noConfusion h
                · rw [if_neg c6] at h
                  by_cases c7 : ¬ (isdigit (rx.getD p 0) && isdigit (rx.getD (p + 1) 0) &&
                      isdigit (rx.getD (p + 2) 0)) = true
                  · rw [if_pos c7] at h; exact Option.noConfusion h
                  · rw [if_neg c7] at h
                    by_cases c8 : 100 * (rx.getD p 0 - 48) + 10 * (rx.getD (p + 1) 0 - 48) +
                        (rx.getD (p + 2) 0 - 48) < 100 ∨
                        100 * (rx.getD p 0 - 48) + 10 * (rx.getD (p + 1) 0 - 48) +
                        (rx.getD (p + 2) 0 - 48) > 599
                    · rw [if_pos c8] at h; exact Option.noConfusion h
                    · rw [if_neg c8] at h
                      cases h
                      refine ⟨rfl, ?_, ?_⟩ <;> dsimp only <;> omega

/-- Facts about any successful `http_identify_headers` run started from a
request/status-line state (`cdl = ro`, one CRLF still in the buffer): the
new `control_data_len` stays within the buffer, and when headers are
present it equals `headers_offset + headers_len + 2` with
`headers_offset = ro`. -/
theorem identify_headers_ok_inv (rx : Buf) (ro cdl ho0 : Nat) (hout : Headers)
    (hh : http_identify_headers rx ro cdl ho0 = .ok hout)
    (hro : cdl = ro) (hlen : ro + 2 ≤ rx.length) :
    hout.control_data_len ≤ rx.length ∧
    (hout.headers_len ≠ 0 →
      hout.headers_offset = ro ∧
      hout.control_data_len = hout.headers_offset + hout.headers_len + 2) := by
  by_cases c1 : (rx.getD ro 0 == 13 && rx.getD (ro + 1) 0 == 10) = true
  · simp only [http_identify_headers, if_pos c1] at hh
    cases hh
    exact ⟨by dsimp only; omega, by simp⟩
  · simp only [http_identify_headers, if_neg c1] at hh
    cases hf : v_find_index rx ro 0 crlfcrlf with
    | none => rw [hf] at hh; exact Except.noConfusion hh
    | some i =>
      rw [hf] at hh
      dsimp only at hh
      have hv := v_find_index_some rx crlfcrlf ro 0 i hf
      simp only [crlfcrlf, List.length_cons, List.length_nil] at hv
      cases hh
      refine ⟨by dsimp only; omega, fun _ => ⟨rfl, by dsimp only; omega⟩⟩

/-- Every successful `http_identify_message_body` run that actually found a
`Content-Length:` header sets `body_offset = headers_offset + headers_len + 2`
(http.c:1020). -/
theorem identify_message_body_offset (rx : Buf) (ho hl bo0 i : Nat) (b : MsgBody)
    (hhl : hl ≠ 0)
    (hcl : v_find_index rx ho hl strContentLength = some i)
    (hb : http_identify_message_body rx ho hl bo0 = .ok b) :
    b.body_offset = ho + hl + 2 := by
  simp only [http_identify_message_body, if_neg hhl, hcl] at hb
  cases hcr : v_find_index rx (i + 15) hl crlf with
  | none => rw [hcr] at hb; exact Except.noConfusion hb
  | some i2 =>
    rw [hcr] at hb
    dsimp only at hb
    set vs := List.take (i2 - (i + 15)) (List.drop (i + 15) rx) with hvs
    set lead := (List.takeWhile isWs vs).length with hlead
    set rest1 := List.drop lead vs with hrest
    set trail := (List.takeWhile isWs rest1.reverse).length with htrail
    by_cases c1 : i2 - (i + 15) < 1
    · rw [if_pos c1] at hb; exact Except.noConfusion hb
    · rw [if_neg c1] at hb
      by_cases c2 : lead = i2 - (i + 15)
      · rw [if_pos c2] at hb; exact Except.noConfusion hb
      · rw [if_neg c2] at hb
        by_cases c3 : rest1.length - trail < 1
        · rw [if_pos c3] at hb; exact Except.noConfusion hb
        · rw [if_neg c3] at hb
          cases hacc : clDigitsAccum 0 (rest1.take (rest1.length - trail)) with
          | error e => rw [hacc] at hb; exact Except.noConfusion hb
          | ok n =>
            rw [hacc] at hb
            dsimp only at hb
            cases hb
            rfl

/-- Shape of `http_parse_request_line` once the CRLF has been located and
the length guard passed: a method-dispatch error propagates unchanged, and
after a successful method dispatch the remaining stages either succeed with
that method or fail with BadRequest / VersionNotSupported — never with
NotImplemented. -/
theorem parse_request_line_cases (rx : Buf) (i : Nat)
    (hfind : v_find_index rx 8 0 crlf = some i)
    (hlen : ¬ (rx.length < i + 2 + 2)) :
    (∃ e, parse_method rx (method_offset rx) = .error e ∧
       http_parse_request_line rx = .error e) ∨
    (∃ m tpo, parse_method rx (method_offset rx) = .ok (m, tpo) ∧
       ((∃ r, http_parse_request_line rx = .ok r ∧ r.method = m) ∨
        http_parse_request_line rx = .error .badRequest ∨
        http_parse_request_line rx = .error .versionNotSupported)) := by
  cases hm : parse_method rx (method_offset rx) with
  | error e =>
    left
    refine ⟨e, rfl, ?_⟩
    simp only [http_parse_request_line, hfind, if_neg hlen, hm]
  | ok mt =>
    obtain ⟨m, tpo⟩ := mt
    right
    refine ⟨m, tpo, rfl, ?_⟩
    simp only [http_parse_request_line, hfind, if_neg hlen, hm]
    cases hv2 : v_find_index rx (u32_sub (i + 2) 11) 11 strSpHTTP with
    | none => right; left; rfl
    | some iv =>
      dsimp only
      by_cases c2 : isdigit (rx.getD (iv + 6) 0) = true
      · rw [if_pos c2]
        by_cases c3 : rx.getD (iv + 6) 0 ≠ 49
        · rw [if_pos c3]; right; right; rfl
        · rw [if_neg c3]
          by_cases c4 : iv - tpo < 1
          · rw [if_pos c4]; right; left; rfl
          · rw [if_neg c4]
            cases ht : http_get_target_form rx tpo (iv - tpo) with
            | none => right; left; rfl
            | some t => left; exact ⟨_, rfl, rfl⟩
      · rw [if_neg c2]; right; left; rfl

/-! ## Claim theorems -/

/-- C9: whenever the transport rx callback fires while the connection is
closed or its HTTP state is not rx-valid (not one of WAIT_SERVER_REPLY,
CLIENT_IO_MORE_DATA, WAIT_CLIENT_METHOD), the core drops all tx bytes of
the callback session and returns without running the state machine;
otherwise it runs the state machine. -/
theorem rx_callback_guard (cs : ConnState) (hs : HState) :
    (cs = .closed ∨
        (hs ≠ .waitServerReply ∧ hs ≠ .clientIoMoreData ∧ hs ≠ .waitClientMethod) →
      http_ts_rx_callback cs hs = ⟨true, false⟩) ∧
    (cs ≠ .closed ∧
        (hs = .waitServerReply ∨ hs = .clientIoMoreData ∨ hs = .waitClientMethod) →
      http_ts_rx_callback cs hs = ⟨false, true⟩) := by
  cases cs <;> cases hs <;> decide

/-- Witness for `rx_callback_guard`: a closed connection drops and skips the
state machine; an established WAIT_CLIENT_METHOD connection dispatches. -/
theorem rx_callback_guard_witness :
    http_ts_rx_callback .closed .waitClientMethod = ⟨true, false⟩ ∧
    http_ts_rx_callback .established .waitClientMethod = ⟨false, true⟩ :=
  ⟨(rx_callback_guard .closed .waitClientMethod).1 (Or.inl rfl),
   (rx_callback_guard .established .waitClientMethod).2
     ⟨by decide, Or.inr (Or.inr rfl)⟩⟩

/-- C2 (amended): for every request whose request line passed the CRLF and
length guards, a method token exactly `GET ` sets method GET and exactly
`POST ` sets method POST (and never yields NotImplemented); any other token
whose first byte is at most `'Z'` (90) — this includes every byte below
`'A'`, not only uppercase letters — makes the parse fail with
NotImplemented; a token whose first byte is greater than `'Z'` makes it
fail with BadRequest. -/
theorem method_dispatch_amended (rx : Buf) (i : Nat)
    (hfind : v_find_index rx 8 0 crlf = some i)
    (hlen : i + 4 ≤ rx.length) :
    (matchAt rx strGETsp (method_offset rx) = true →
       http_parse_request_line rx ≠ .error .notImplemented ∧
       ∀ r, http_parse_request_line rx = .ok r → r.method = .get) ∧
    (matchAt rx strPOSTsp (method_offset rx) = true →
       http_parse_request_line rx ≠ .error .notImplemented ∧
       ∀ r, http_parse_request_line rx = .ok r → r.method = .post) ∧
    (matchAt rx strGETsp (method_offset rx) = false →
     matchAt rx strPOSTsp (method_offset rx) = false →
     rx.getD (method_offset rx) 0 ≤ 90 →
       http_parse_request_line rx = .error .notImplemented) ∧
    (matchAt rx strGETsp (method_offset rx) = false →
     matchAt rx strPOSTsp (method_offset rx) = false →
     90 < rx.getD (method_offset rx) 0 →
       http_parse_request_line rx = .error .badRequest) := by
  have hlen' : ¬ (rx.length < i + 2 + 2) := by omega
  have hcases := parse_request_line_cases rx i hfind hlen'
  refine ⟨?gGET, ?gPOST, ?gNI, ?gBR⟩
  case gGET =>
    intro hG
    have hm : parse_method rx (method_offset rx) = .ok (.get, method_offset rx + 4) := by
      unfold parse_method; rw [if_pos hG]
    rcases hcases with ⟨e, he, _⟩ | ⟨m, tpo, hok, hres⟩
    · rw [hm] at he; exact Except.noConfusion he
    · rw [hm] at hok
      cases hok
      constructor
      · intro hcontra
        rcases hres with ⟨r, hra, _⟩ | hbr | hvns
        · rw [hcontra] at hra; exact Except.noConfusion hra
        · rw [hcontra] at hbr; simp at hbr
        · rw [hcontra] at hvns; simp at hvns
      · intro r hr
        rcases hres with ⟨r', hra, hrm⟩ | hbr | hvns
        · obtain rfl := Except.ok.inj (hr.symm.trans hra)
          exact hrm
        · rw [hr] at hbr; exact Except.noConfusion hbr
        · rw [hr] at hvns; exact Except.noConfusion hvns
  case gPOST =>
    intro hP
    have hm : parse_method rx (method_offset rx) = .ok (.post, method_offset rx + 5) := by
      unfold parse_method
      have hG' : ¬ (matchAt rx strGETsp (method_offset rx) = true) := by
        intro hc
        have : strGETsp.getD 0 0 = strPOSTsp.getD 0 0 := by
          have h1 := (List.all_eq_true.mp hc) 0 (by simp [strGETsp, str2bytes])
          have h2 := (List.all_eq_true.mp hP) 0 (by simp [strPOSTsp, str2bytes])
          simp only [Nat.add_zero] at h1 h2
          rw [← eq_of_beq h1, ← eq_of_beq h2]
        simp [strGETsp, strPOSTsp, str2bytes] at this
      rw [if_neg hG', if_pos hP]
    rcases hcases with ⟨e, he, _⟩ | ⟨m, tpo, hok, hres⟩
    · rw [hm] at he; exact Except.noConfusion he
    · rw [hm] at hok
      cases hok
      constructor
      · intro hcontra
        rcases hres with ⟨r, hra, _⟩ | hbr | hvns
        · rw [hcontra] at hra; exact Except.noConfusion hra
        · rw [hcontra] at hbr; simp at hbr
        · rw [hcontra] at hvns; simp at hvns
      · intro r hr
        rcases hres with ⟨r', hra, hrm⟩ | hbr | hvns
        · obtain rfl := Except.ok.inj (hr.symm.trans hra)
          exact hrm
        · rw [hr] at hbr; exact Except.noConfusion hbr
        · rw [hr] at hvns; exact Except.noConfusion hvns
  case gNI =>
    intro hG hP hle
    have hm : parse_method rx (method_offset rx) = .error .notImplemented := by
      have hG' : ¬ (matchAt rx strGETsp (method_offset rx) = true) := by simp [hG]
      have hP' : ¬ (matchAt rx strPOSTsp (method_offset rx) = true) := by simp [hP]
      have hint : ((rx.getD (method_offset rx) 0 : Int) - 65 ≤ 25) := by omega
      unfold parse_method
      rw [if_neg hG', if_neg hP', if_pos hint]
    rcases hcases with ⟨e, he, hp⟩ | ⟨m, tpo, hok, _⟩
    · rw [hm] at he
      obtain rfl := Except.error.inj he
      exact hp
    · rw [hm] at hok; exact Except.noConfusion hok
  case gBR =>
    intro hG hP hgt
    have hm : parse_method rx (method_offset rx) = .error .badRequest := by
      have hG' : ¬ (matchAt rx strGETsp (method_offset rx) = true) := by simp [hG]
      have hP' : ¬ (matchAt rx strPOSTsp (method_offset rx) = true) := by simp [hP]
      have hint : ¬ ((rx.getD (method_offset rx) 0 : Int) - 65 ≤ 25) := by omega
      unfold parse_method
      rw [if_neg hG', if_neg hP', if_neg hint]
    rcases hcases with ⟨e, he, hp⟩ | ⟨m, tpo, hok, _⟩
    · rw [hm] at he
      obtain rfl := Except.error.inj he
      exact hp
    · rw [hm] at hok; exact Except.noConfusion hok

/-- Witness for `method_dispatch_amended`: the token `zET ` has first byte
`'z' = 122 > 90`, so the parse fails with BadRequest. -/
theorem method_dispatch_amended_witness :
    http_parse_request_line (str2bytes ("zET / HTTP/1.1\r\n\r\n")) =
      .error .badRequest :=
  (method_dispatch_amended (str2bytes ("zET / HTTP/1.1\r\n\r\n")) 14
      (by decide) (by decide)).2.2.2 (by decide) (by decide) (by decide)

/-- C5: for every successfully parsed message that has a body (a
Content-Length header is present and valid), the parsed offsets satisfy
`body_offset = headers_offset + headers_len + 2` and
`control_data_len = body_offset`. -/
theorem parsed_body_offsets_invariant (rx : Buf) (r : ReqLine) (h : Headers)
    (b : MsgBody) (i : Nat)
    (hr : http_parse_request_line rx = .ok r)
    (hh : http_identify_headers rx r.rx_buf_offset r.control_data_len 0 = .ok h)
    (hhl : h.headers_len ≠ 0)
    (hcl : v_find_index rx h.headers_offset h.headers_len strContentLength = some i)
    (hb : http_identify_message_body rx h.headers_offset h.headers_len 0 = .ok b) :
    b.body_offset = h.headers_offset + h.headers_len + 2 ∧
    h.control_data_len = b.body_offset := by
  obtain ⟨hro, hcd10, hcdlen⟩ := parse_request_line_ok_inv rx r hr
  obtain ⟨hclen, hhdr⟩ :=
    identify_headers_ok_inv rx r.rx_buf_offset r.control_data_len 0 h hh
      hro.symm (by omega)
  obtain ⟨hHo, hHcd⟩ := hhdr hhl
  have hbo := identify_message_body_offset rx h.headers_offset h.headers_len 0 i b hhl hcl hb
  exact ⟨hbo, by omega⟩

/-- Witness for `parsed_body_offsets_invariant` at the concrete request
`GET / HTTP/1.1␍␊Content-Length: 2␍␊␍␊hi`. -/
theorem parsed_body_offsets_invariant_witness :
    (MsgBody.mk 2 37).body_offset =
      (Headers.mk 16 19 37).headers_offset + (Headers.mk 16 19 37).headers_len + 2 ∧
    (Headers.mk 16 19 37).control_data_len = (MsgBody.mk 2 37).body_offset :=
  parsed_body_offsets_invariant
    (str2bytes ("GET / HTTP/1.1\r\nContent-Length: 2\r\n\r\nhi"))
    ⟨.get, 16, 5, 0, 0, 0, .origin, 16⟩ ⟨16, 19, 37⟩ ⟨2, 37⟩ 16
    (by decide) (by decide) (by decide) (by decide) (by decide)

/-- C3: in the server's WAIT_CLIENT_METHOD handler, with
`len = min maxEnq (min (control_data_len + body_len) rx_buf_len)` bytes
handed off, the handed-off body bytes `len - control_data_len` never exceed
`body_len`; whenever the initial handoff transfers the entire body
(`to_recv` computes to 0), all remaining rx bytes are dropped
(`http_read_message_drop_all`) and the state advances to WAIT_APP_REPLY;
otherwise only the handed-off `len` bytes are dropped, the state advances
to CLIENT_IO_MORE_DATA, and `to_recv = body_len - handed-off body bytes`. -/
theorem wait_client_method_handoff_drop (statusStr : StatusCode → Buf)
    (date rxBuf : Buf) (maxEnq : Nat) (r : ReqLine) (h : Headers) (b : MsgBody)
    (hr : http_parse_request_line rxBuf = .ok r)
    (hh : http_identify_headers rxBuf r.rx_buf_offset r.control_data_len 0 = .ok h)
    (hb : http_identify_message_body rxBuf h.headers_offset h.headers_len 0 = .ok b)
    (henq : h.control_data_len ≤ maxEnq) :
    (min maxEnq (min (h.control_data_len + b.body_len) rxBuf.length) -
        h.control_data_len ≤ b.body_len) ∧
    (b.body_len - (min maxEnq (min (h.control_data_len + b.body_len) rxBuf.length) -
        h.control_data_len) = 0 →
      http_state_wait_client_method statusStr date rxBuf maxEnq 0 0 =
        ⟨.stop,
         [.appRxEnqueue (min maxEnq (min (h.control_data_len + b.body_len) rxBuf.length)),
          .tsRxDropAll, .appRxNotify],
         .waitAppReply, some 0, none⟩) ∧
    (b.body_len - (min maxEnq (min (h.control_data_len + b.body_len) rxBuf.length) -
        h.control_data_len) ≠ 0 →
      http_state_wait_client_method statusStr date rxBuf maxEnq 0 0 =
        ⟨.stop,
         [.appRxEnqueue (min maxEnq (min (h.control_data_len + b.body_len) rxBuf.length)),
          .tsRxDrop (min maxEnq (min (h.control_data_len + b.body_len) rxBuf.length)),
          .appRxNotify],
         .clientIoMoreData,
         some (b.body_len -
           (min maxEnq (min (h.control_data_len + b.body_len) rxBuf.length) -
             h.control_data_len)),
         none⟩) := by
  obtain ⟨hro, hcd10, hcdlen⟩ := parse_request_line_ok_inv rxBuf r hr
  have hne : ¬ (rxBuf.length = 0) := by omega
  have hge : ¬ (rxBuf.length < 8) := by omega
  have hroom : ¬ (maxEnq < h.control_data_len) := by omega
  refine ⟨by omega, fun hz => ?_, fun hz => ?_⟩
  · simp only [http_state_wait_client_method, if_neg hne, if_neg hge, hr, hh, hb,
      if_neg hroom, if_pos hz]
  · simp only [http_state_wait_client_method, if_neg hne, if_neg hge, hr, hh, hb,
      if_neg hroom, if_neg hz]

/-- Witness for `wait_client_method_handoff_drop`, at a request with its
full 2-byte body present (everything dropped, WAIT_APP_REPLY) and one
whose 4-byte body is only half present (drop `len`, CLIENT_IO_MORE_DATA,
`to_recv = 2`). -/
theorem wait_client_method_handoff_drop_witness :
    http_state_wait_client_method http_status_code_str []
        (str2bytes ("GET / HTTP/1.1\r\nContent-Length: 2\r\n\r\nhi")) 100 0 0 =
      ⟨.stop, [.appRxEnqueue 39, .tsRxDropAll, .appRxNotify],
       .waitAppReply, some 0, none⟩ ∧
    http_state_wait_client_method http_status_code_str []
        (str2bytes ("GET / HTTP/1.1\r\nContent-Length: 4\r\n\r\nhi")) 100 0 0 =
      ⟨.stop, [.appRxEnqueue 39, .tsRxDrop 39, .appRxNotify],
       .clientIoMoreData, some 2, none⟩ :=
  ⟨(wait_client_method_handoff_drop http_status_code_str []
      (str2bytes ("GET / HTTP/1.1\r\nContent-Length: 2\r\n\r\nhi")) 100
      ⟨.get, 16, 5, 0, 0, 0, .origin, 16⟩ ⟨16, 19, 37⟩ ⟨2, 37⟩
      (by decide) (by decide) (by decide) (by decide)).2.1 (by decide),
   (wait_client_method_handoff_drop http_status_code_str []
      (str2bytes ("GET / HTTP/1.1\r\nContent-Length: 4\r\n\r\nhi")) 100
      ⟨.get, 16, 5, 0, 0, 0, .origin, 16⟩ ⟨16, 19, 37⟩ ⟨4, 37⟩
      (by decide) (by decide) (by decide) (by decide)).2.2 (by decide)⟩

/-- C10: on the client path, after WAIT_SERVER_REPLY successfully hands off
a parsed reply, exactly the handed-off byte count — the minimum of the app
rx queue's free space (after reserving the handoff message header) and the
length of rx_buf — is dropped from the transport rx queue via
`http_read_message_drop`; trailing bytes beyond it stay queued: unlike the
server path, no drop-all happens even when the whole body was handed
off. -/
theorem wait_server_reply_drop_exact (msgSize : Nat) (rxBuf : Buf)
    (maxEnqRaw ho0 bo0 : Nat) (sl : StatusLine) (h : Headers) (b : MsgBody)
    (hsl : http_parse_status_line rxBuf = some sl)
    (hh : http_identify_headers rxBuf sl.rx_buf_offset sl.control_data_len ho0 = .ok h)
    (hb : http_identify_message_body rxBuf h.headers_offset h.headers_len bo0 = .ok b)
    (hroom : h.control_data_len ≤ u32_sub maxEnqRaw msgSize) :
    (http_state_wait_server_reply msgSize rxBuf maxEnqRaw ho0 bo0).actions =
      [.appRxEnqueue (min (u32_sub maxEnqRaw msgSize) rxBuf.length),
       .tsRxDrop (min (u32_sub maxEnqRaw msgSize) rxBuf.length), .appRxNotify] ∧
    Action.tsRxDropAll ∉ (http_state_wait_server_reply msgSize rxBuf maxEnqRaw ho0 bo0).actions ∧
    (http_state_wait_server_reply msgSize rxBuf maxEnqRaw ho0 bo0).result = .stop := by
  obtain ⟨hro, h14, hlen⟩ := parse_status_line_ok_inv rxBuf sl hsl
  have hne : ¬ (rxBuf.length = 0) := by omega
  have hge : ¬ (rxBuf.length < 8) := by omega
  have hroom' : ¬ (u32_sub maxEnqRaw msgSize < h.control_data_len) := by omega
  by_cases hz : b.body_len -
      (min (u32_sub maxEnqRaw msgSize) rxBuf.length - h.control_data_len) = 0
  · simp only [http_state_wait_server_reply, if_neg hne, if_neg hge, hsl, hh, hb,
      if_neg hroom', if_pos hz]
    simp
  · simp only [http_state_wait_server_reply, if_neg hne, if_neg hge, hsl, hh, hb,
      if_neg hroom', if_neg hz]
    simp

/-- Witness for `wait_server_reply_drop_exact` at the concrete reply
`HTTP/1.1 200 OK␍␊Content-Length: 2␍␊␍␊hi` with a 16-byte message header
reserved out of 1000 free bytes. -/
theorem wait_server_reply_drop_exact_witness :
    (http_state_wait_server_reply 16
        (str2bytes ("HTTP/1.1 200 OK\r\nContent-Length: 2\r\n\r\nhi")) 1000 0 0).actions =
      [.appRxEnqueue 40, .tsRxDrop 40, .appRxNotify] ∧
    Action.tsRxDropAll ∉ (http_state_wait_server_reply 16
        (str2bytes ("HTTP/1.1 200 OK\r\nContent-Length: 2\r\n\r\nhi")) 1000 0 0).actions ∧
    (http_state_wait_server_reply 16
        (str2bytes ("HTTP/1.1 200 OK\r\nContent-Length: 2\r\n\r\nhi")) 1000 0 0).result = .stop :=
  wait_server_reply_drop_exact 16
    (str2bytes ("HTTP/1.1 200 OK\r\nContent-Length: 2\r\n\r\nhi")) 1000 0 0
    ⟨17, 200, 17⟩ ⟨17, 19, 38⟩ ⟨2, 38⟩
    (by decide) (by decide) (by decide) (by decide)

/-- C1: the Content-Length digit parser is *not* overflow-safe as claimed.
The 20-digit value `23058430092136939520 = 10 * 2^61` exceeds `2^64 - 1`,
yet the full parse pipeline accepts the message: the `u64` accumulator
wraps to `2^62 = 4611686018427387904` and the single wrap check
`new_body_len < body_len` does not fire, because the wrapped value is
still larger than the previous accumulator `2^61`.  So `body_len` is set
to the wrapped value instead of the message being rejected with
BadRequest. -/
theorem content_length_overflow_wraps :
    Except.map (fun x => (x.2.2.body_len, x.2.2.body_offset))
        (parse_request_full
          (str2bytes ("POST / HTTP/1.1\r\nContent-Length: 23058430092136939520\r\n\r\n"))) =
      .ok (4611686018427387904, 57) ∧
    decimalValue (str2bytes ("23058430092136939520")) = 23058430092136939520 ∧
    18446744073709551615 < 23058430092136939520 ∧
    (4611686018427387904 : Nat) ≠ 23058430092136939520 :=
  ⟨by decide, by decide, by decide, by decide⟩

/-- C2 counterexample: the request line `0ET / HTTP/1.1` has a method token
whose first byte `'0'` is not an uppercase ASCII letter, so the claim
demands BadRequest; the code replies NotImplemented, because
`rx_buf[method_offset] - 'A' <= 'Z' - 'A'` is C `int` arithmetic and
`'0' - 'A' = -17 ≤ 25`. -/
theorem method_dispatch_counterexample :
    http_parse_request_line (str2bytes ("0ET / HTTP/1.1\r\n\r\n")) =
      .error .notImplemented ∧
    StatusCode.notImplemented ≠ StatusCode.badRequest :=
  ⟨by decide, by decide⟩

/-- C7: for every parse failure on the server rx path (bad request line,
bad headers, bad Content-Length — all signalled through the status-code
out-parameter `ec` — as well as an app rx queue too small for the control
data, signalled as InternalError), the WAIT_CLIENT_METHOD handler drops
all rx bytes, sends exactly the minimal error response
`HTTP/1.1 <code>\r\nDate: <now> GMT\r\nConnection: close\r\nContent-Length: 0\r\n\r\n`
carrying that failure's status code, notifies the app that the connection
is closing, and disconnects the downstream transport, returning ERROR with
the HTTP state left at WAIT_CLIENT_METHOD. -/
theorem server_error_response_spec (statusStr : StatusCode → Buf)
    (date rxBuf : Buf) (maxEnq ho0 bo0 : Nat) (ec : StatusCode)
    (hec : (http_state_wait_client_method statusStr date rxBuf maxEnq ho0 bo0).errorCode =
      some ec) :
    (http_state_wait_client_method statusStr date rxBuf maxEnq ho0 bo0).actions =
      [.tsRxDropAll, .sendData (http_error_template (statusStr ec) date),
       .closingNotify, .disconnect] ∧
    (http_state_wait_client_method statusStr date rxBuf maxEnq ho0 bo0).result = .error ∧
    (http_state_wait_client_method statusStr date rxBuf maxEnq ho0 bo0).httpState =
      .waitClientMethod := by
  by_cases h0 : rxBuf.length = 0
  · simp only [http_state_wait_client_method, if_pos h0] at hec
    exact Option.noConfusion hec
  · have h0' : ¬ (rxBuf = []) := fun hx => h0 (by simp [hx])
    by_cases h8 : rxBuf.length < 8
    · simp only [http_state_wait_client_method, http_send_error, if_neg h0, if_pos h8,
        Option.some.injEq] at hec
      subst hec
      simp [http_state_wait_client_method, http_send_error, h0', if_pos h8]
    · cases hpr : http_parse_request_line rxBuf with
      | error e =>
        simp only [http_state_wait_client_method, http_send_error, if_neg h0, if_neg h8,
          hpr, Option.some.injEq] at hec
        subst hec
        simp [http_state_wait_client_method, http_send_error, h0', if_neg h8, hpr]
      | ok r =>
        cases hih : http_identify_headers rxBuf r.rx_buf_offset r.control_data_len ho0 with
        | error e =>
          simp only [http_state_wait_client_method, http_send_error, if_neg h0, if_neg h8,
            hpr, hih, Option.some.injEq] at hec
          subst hec
          simp [http_state_wait_client_method, http_send_error, h0', if_neg h8, hpr, hih]
        | ok h =>
          cases hib : http_identify_message_body rxBuf h.headers_offset h.headers_len bo0 with
          | error e =>
            simp only [http_state_wait_client_method, http_send_error, if_neg h0, if_neg h8,
              hpr, hih, hib, Option.some.injEq] at hec
            subst hec
            simp [http_state_wait_client_method, http_send_error, h0', if_neg h8,
              hpr, hih, hib]
          | ok b =>
            by_cases hroom : maxEnq < h.control_data_len
            · simp only [http_state_wait_client_method, http_send_error, if_neg h0, if_neg h8,
                hpr, hih, hib, if_pos hroom, Option.some.injEq] at hec
              subst hec
              simp [http_state_wait_client_method, http_send_error, h0', if_neg h8,
                hpr, hih, hib, if_pos hroom]
            · by_cases hz : b.body_len -
                  (min maxEnq (min (h.control_data_len + b.body_len) rxBuf.length) -
                    h.control_data_len) = 0
              · simp only [http_state_wait_client_method, if_neg h0, if_neg h8,
                  hpr, hih, hib, if_neg hroom, if_pos hz] at hec
                exact Option.noConfusion hec
              · simp only [http_state_wait_client_method, if_neg h0, if_neg h8,
                  hpr, hih, hib, if_neg hroom, if_neg hz] at hec
                exact Option.noConfusion hec

/-- Witness for `server_error_response_spec`: the malformed request
`XXXXXXXX␍␊␍␊` fails with NotImplemented (first byte `X ≤ Z`) and the
handler emits exactly the drop-all / error-response / closing / disconnect
sequence. -/
theorem server_error_response_spec_witness :
    (http_state_wait_client_method http_status_code_str []
        (str2bytes ("XXXXXXXX\r\n\r\n")) 100 0 0).actions =
      [.tsRxDropAll,
       .sendData (http_error_template (http_status_code_str .notImplemented) []),
       .closingNotify, .disconnect] ∧
    (http_state_wait_client_method http_status_code_str []
        (str2bytes ("XXXXXXXX\r\n\r\n")) 100 0 0).result = .error ∧
    (http_state_wait_client_method http_status_code_str []
        (str2bytes ("XXXXXXXX\r\n\r\n")) 100 0 0).httpState = .waitClientMethod :=
  server_error_response_spec http_status_code_str []
    (str2bytes ("XXXXXXXX\r\n\r\n")) 100 0 0 .notImplemented (by decide)

/-- C4: in CLIENT_IO_MORE_DATA (invoked with data available,
`maxDeq ≠ 0`), each invocation moves at most
`min (app-rx max-enqueue) (transport-rx max-dequeue)` body bytes; if the
app rx queue is full the handler registers a dequeue notification on it
and returns STOP; if more bytes than `to_recv` are delivered the
connection is closed as a protocol error; and when `to_recv` reaches 0 the
state advances to WAIT_APP_REPLY for a server and WAIT_APP_METHOD for a
client. -/
theorem client_io_more_data_spec (maxDeq maxEnq toRecv : Nat) (isServer : Bool)
    (chunk : Nat) (hDeq : maxDeq ≠ 0) :
    (∀ n, Action.appRxEnqueue n ∈
        (http_state_client_io_more_data maxDeq maxEnq toRecv isServer chunk).actions →
      n ≤ min maxEnq maxDeq) ∧
    (maxEnq = 0 →
      http_state_client_io_more_data maxDeq maxEnq toRecv isServer chunk =
        ⟨.stop, [.appRxWantDeqNtf], .clientIoMoreData, some toRecv, none⟩) ∧
    (maxEnq ≠ 0 → toRecv < min chunk (min maxEnq maxDeq) →
      (http_state_client_io_more_data maxDeq maxEnq toRecv isServer chunk).result = .error ∧
      Action.closingNotify ∈
        (http_state_client_io_more_data maxDeq maxEnq toRecv isServer chunk).actions ∧
      Action.disconnect ∈
        (http_state_client_io_more_data maxDeq maxEnq toRecv isServer chunk).actions) ∧
    (maxEnq ≠ 0 → min chunk (min maxEnq maxDeq) ≤ toRecv →
      (http_state_client_io_more_data maxDeq maxEnq toRecv isServer chunk).toRecv =
        some (toRecv - min chunk (min maxEnq maxDeq)) ∧
      (toRecv - min chunk (min maxEnq maxDeq) = 0 →
        (http_state_client_io_more_data maxDeq maxEnq toRecv isServer chunk).httpState =
          (if isServer then HState.waitAppReply else HState.waitAppMethod)) ∧
      (toRecv - min chunk (min maxEnq maxDeq) ≠ 0 →
        (http_state_client_io_more_data maxDeq maxEnq toRecv isServer chunk).httpState =
          .clientIoMoreData)) := by
  refine ⟨?gMove, ?gFull, ?gProto, ?gDone⟩
  case gFull =>
    intro hE
    simp only [http_state_client_io_more_data, if_neg hDeq, if_pos hE]
  case gMove =>
    intro n hn
    simp only [http_state_client_io_more_data, if_neg hDeq] at hn
    by_cases hE : maxEnq = 0
    · rw [if_pos hE] at hn
      simp at hn
    · rw [if_neg hE] at hn
      by_cases hlt : toRecv < min chunk (min maxEnq maxDeq)
      · rw [if_pos hlt] at hn
        simp at hn
        omega
      · rw [if_neg hlt] at hn
        by_cases ht : maxDeq - min chunk (min maxEnq maxDeq) ≠ 0
        · rw [if_pos ht] at hn
          simp at hn
          omega
        · rw [if_neg ht] at hn
          simp at hn
          omega
  case gProto =>
    intro hE hlt
    simp only [http_state_client_io_more_data, if_neg hDeq, if_neg hE, if_pos hlt]
    simp
  case gDone =>
    intro hE hle
    have hlt : ¬ (toRecv < min chunk (min maxEnq maxDeq)) := by omega
    simp only [http_state_client_io_more_data, if_neg hDeq, if_neg hE, if_neg hlt]
    refine ⟨by simp, fun hz => ?_, fun hz => ?_⟩
    · simp only [if_pos hz]
    · simp only [if_neg hz]

/-- Witness for `client_io_more_data_spec`: transport rx has 10 bytes in a
6-byte first chunk, app rx has room for 8, `to_recv = 6`: the chunk
completes the body and a server connection advances to WAIT_APP_REPLY. -/
theorem client_io_more_data_spec_witness :
    (http_state_client_io_more_data 10 8 6 true 6).toRecv = some 0 ∧
    (http_state_client_io_more_data 10 8 6 true 6).httpState = HState.waitAppReply :=
  ⟨((client_io_more_data_spec 10 8 6 true 6 (by decide)).2.2.2 (by decide) (by decide)).1,
   (((client_io_more_data_spec 10 8 6 true 6 (by decide)).2.2.2 (by decide) (by decide)).2.1
      (by decide)).trans (by decide)⟩

/-- C8 (amended): an app-side protocol violation detected in
WAIT_APP_METHOD (invalid data type, handoff message of the wrong type, GET
request with `body_len > 0`, POST request with `body_len = 0`, or an
unsupported method value) drops all bytes remaining in the app tx queue,
notifies the app closing and closed, and disconnects the downstream
transport.  A violation detected in WAIT_APP_REPLY (invalid data type or
wrong message type) instead sends a 500 error response, notifies closing
only, and disconnects — it neither drops the app tx bytes nor notifies
closed; and an invalid reply code in WAIT_APP_REPLY returns ERROR with no
teardown actions at all. -/
theorem app_violation_teardown_amended (statusStr : StatusCode → Buf) (nStatus : Nat)
    (date appName host target appHeaders codeStr : Buf) (msg : HttpMsg) (tsTxFree : Nat) :
    (1 < msg.dataType ∨ msg.type ≠ .request ∨
        (msg.methodType = .get ∧ msg.bodyLen ≠ 0) ∨
        (msg.methodType = .post ∧ msg.bodyLen = 0) ∨ msg.methodType = .other →
      (http_state_wait_app_method appName host target appHeaders msg tsTxFree).result =
        .error ∧
      (http_state_wait_app_method appName host target appHeaders msg tsTxFree).actions =
        [.appTxDropAll, .closingNotify, .closedNotify, .disconnect]) ∧
    (1 < msg.dataType ∨ msg.type ≠ .reply →
      (http_state_wait_app_reply statusStr nStatus date appName codeStr appHeaders
          msg tsTxFree).actions =
        [http_send_error statusStr date .internalError, .closingNotify, .disconnect] ∧
      Action.appTxDropAll ∉ (http_state_wait_app_reply statusStr nStatus date appName
          codeStr appHeaders msg tsTxFree).actions ∧
      Action.closedNotify ∉ (http_state_wait_app_reply statusStr nStatus date appName
          codeStr appHeaders msg tsTxFree).actions) ∧
    (msg.dataType ≤ 1 → msg.type = .reply → nStatus ≤ msg.code →
      (http_state_wait_app_reply statusStr nStatus date appName codeStr appHeaders
          msg tsTxFree).result = .error ∧
      (http_state_wait_app_reply statusStr nStatus date appName codeStr appHeaders
          msg tsTxFree).actions = []) := by
  refine ⟨?gMethod, ?gReply, ?gCode⟩
  case gMethod =>
    intro hviol
    by_cases hd : 1 < msg.dataType
    · simp only [http_state_wait_app_method, if_pos hd]
      simp
    · by_cases htype : msg.type = .request
      · simp only [http_state_wait_app_method, if_neg hd, if_neg (not_not_intro htype)]
        rcases hviol with hv | hv | ⟨hm, hb⟩ | ⟨hm, hb⟩ | hm
        · exact absurd hv hd
        · exact absurd htype hv
        · simp only [hm, if_pos hb]
          simp
        · simp only [hm, if_pos hb]
          simp
        · simp only [hm]
          simp
      · simp only [http_state_wait_app_method, if_neg hd, if_pos htype]
        simp
  case gReply =>
    intro hviol
    by_cases hd : 1 < msg.dataType
    · simp only [http_state_wait_app_reply, if_pos hd]
      refine ⟨by simp, by simp [http_send_error], by simp [http_send_error]⟩
    · rcases hviol with hv | hv
      · exact absurd hv hd
      · simp only [http_state_wait_app_reply, if_neg hd, if_pos hv]
        refine ⟨by simp, by simp [http_send_error], by simp [http_send_error]⟩
  case gCode =>
    intro hd htype hcode
    have hd' : ¬ (1 < msg.dataType) := by omega
    have htype' : ¬ (msg.type ≠ .reply) := not_not_intro htype
    simp only [http_state_wait_app_reply, if_neg hd', if_neg htype', if_pos hcode]
    simp

/-- Witness for `app_violation_teardown_amended`: a GET request handoff
with a nonzero body length in WAIT_APP_METHOD is torn down with
drop-all / closing / closed / disconnect, while a REQUEST-typed message in
WAIT_APP_REPLY yields the 500-response path. -/
theorem app_violation_teardown_amended_witness :
    (http_state_wait_app_method [] [] [] [] ⟨.request, .get, 0, 0, 0, 5⟩ 1000).result =
      .error ∧
    (http_state_wait_app_method [] [] [] [] ⟨.request, .get, 0, 0, 0, 5⟩ 1000).actions =
      [.appTxDropAll, .closingNotify, .closedNotify, .disconnect] ∧
    (http_state_wait_app_reply http_status_code_str 5 [] [] [] []
        ⟨.request, .get, 0, 0, 0, 5⟩ 1000).actions =
      [http_send_error http_status_code_str [] .internalError, .closingNotify, .disconnect] :=
  ⟨((app_violation_teardown_amended http_status_code_str 5 [] [] [] [] [] []
      ⟨.request, .get, 0, 0, 0, 5⟩ 1000).1 (Or.inr (Or.inr (Or.inl ⟨rfl, by decide⟩)))).1,
   ((app_violation_teardown_amended http_status_code_str 5 [] [] [] [] [] []
      ⟨.request, .get, 0, 0, 0, 5⟩ 1000).1 (Or.inr (Or.inr (Or.inl ⟨rfl, by decide⟩)))).2,
   ((app_violation_teardown_amended http_status_code_str 5 [] [] [] [] [] []
      ⟨.request, .get, 0, 0, 0, 5⟩ 1000).2.1 (Or.inr (by decide))).1⟩

/-- C8 counterexample: a handoff message of the wrong type (a REQUEST)
arriving in WAIT_APP_REPLY is an app-side protocol violation, yet the
handler neither drops the app tx bytes nor notifies closed; it sends a 500
error response, notifies closing only, and disconnects. -/
theorem app_reply_violation_counterexample :
    Action.appTxDropAll ∉
      (http_state_wait_app_reply http_status_code_str 5 [] [] [] []
        ⟨.request, .get, 0, 0, 0, 0⟩ 1000).actions ∧
    Action.closedNotify ∉
      (http_state_wait_app_reply http_status_code_str 5 [] [] [] []
        ⟨.request, .get, 0, 0, 0, 0⟩ 1000).actions ∧
    (http_state_wait_app_reply http_status_code_str 5 [] [] [] []
        ⟨.request, .get, 0, 0, 0, 0⟩ 1000).actions =
      [http_send_error http_status_code_str [] .internalError,
       .closingNotify, .disconnect] :=
  ⟨by decide, by decide, by decide⟩

end VppHttp
